import Mathlib

/-!
Shallow embedding of the control core of `agrivision.py` (class `AgriVision`):
the steering control law (`calculate_output`), the row offset estimator
(`find_offset`), fusion and smoothing (`estimate_row` with its offset history),
and the acquisition health monitor (`capture_images`).  Python 2 semantics are
modelled explicitly: `int()` truncates toward zero, `round(x, 2)` rounds half
away from zero, `/` on two ints floors, floats are modelled as rationals.
-/

namespace AgriVision

/-- Python 2 `int()` applied to a float: truncation toward zero.
(`Rat.floor` is used rather than `Int.floor` so that the definition
evaluates inside the kernel; `pyInt_eq` below relates the two.) -/
def pyInt (q : ℚ) : ℤ := if 0 ≤ q then q.floor else -(-q).floor

/-- Python 2 `round` to the nearest integer, halves away from zero. -/
def pyRound (q : ℚ) : ℤ := if 0 ≤ q then (q + 1/2).floor else -(-(q - 1/2)).floor

/-- Python 2 `round(x, 2)`: round to two decimal places, halves away from zero. -/
def round2 (q : ℚ) : ℚ := (pyRound (100 * q) : ℚ) / 100

/-- The configuration keys of `agrivision.py` that the control core reads
(loaded from JSON in `__init__` and bound onto the instance).  A PID
coefficient is `Option ℚ`: `none` models a key that is missing from the
configuration file (reading it raises `AttributeError`). -/
structure Config where
  CAMERAS : ℕ
  CAMERA_WIDTH : ℕ
  CAMERA_HEIGHT : ℕ
  CAMERA_ROTATED : Bool
  THRESHOLD_PERCENTILE : ℚ
  NUM_AVERAGES : ℕ
  PWM_MIN : ℤ
  PWM_MAX : ℤ
  P_COEF : Option ℚ
  I_COEF : Option ℚ
  D_COEF : Option ℚ
  MIN_VOLTAGE : ℚ
  MAX_VOLTAGE : ℚ

/-- `init_cameras`: dimensions are swapped first when `CAMERA_ROTATED`, then
`self.CAMERA_CENTER = self.CAMERA_WIDTH / 2` (Python 2 integer division). -/
def CAMERA_CENTER (cfg : Config) : ℕ :=
  (if cfg.CAMERA_ROTATED then cfg.CAMERA_HEIGHT else cfg.CAMERA_WIDTH) / 2

/-- `init_pid`: `self.CENTER_PWM = int(self.PWM_MIN + self.PWM_MAX / 2.0)`.
Note the Python expression divides only `PWM_MAX` by 2 before adding
`PWM_MIN` (`/` binds tighter than `+`). -/
def CENTER_PWM (cfg : Config) : ℤ :=
  pyInt ((cfg.PWM_MIN : ℚ) + (cfg.PWM_MAX : ℚ) / 2)

/-- The clamp in `calculate_output`:
`if pwm > PWM_MAX: pwm = PWM_MAX elif pwm < PWM_MIN: pwm = PWM_MIN`. -/
def clampPwm (cfg : Config) (pwm : ℤ) : ℤ :=
  if pwm > cfg.PWM_MAX then cfg.PWM_MAX
  else if pwm < cfg.PWM_MIN then cfg.PWM_MIN
  else pwm

/-- `calculate_output(estimate, average, diff)`.  On the success path it
returns `(pwm, volts)`.  If an arithmetic step raises (a missing PID
coefficient raises `AttributeError`; `PWM_MAX - PWM_MIN = 0` raises
`ZeroDivisionError` in the volts expression), the `except` handler sets
`pwm = CENTER_PWM` but never binds `volts`, so the final
`return pwm, volts` raises `UnboundLocalError`: the call does not return a
value, modelled as `Except.error ()`. -/
def calculate_output (cfg : Config) (estimate average diff : ℚ) :
    Except Unit (ℤ × ℚ) :=
  match cfg.P_COEF, cfg.I_COEF, cfg.D_COEF with
  | some kp, some ki, some kd =>
    let p := estimate * kp
    let i := average * ki
    let d := diff * kd
    let pwm0 := pyInt (p + i + d + (CENTER_PWM cfg : ℚ))
    let pwm1 := clampPwm cfg pwm0
    if cfg.PWM_MAX = cfg.PWM_MIN then
      Except.error ()
    else
      let volts := round2 ((pwm1 : ℚ) * (cfg.MAX_VOLTAGE - cfg.MIN_VOLTAGE) /
        ((cfg.PWM_MAX : ℚ) - (cfg.PWM_MIN : ℚ)) + cfg.MIN_VOLTAGE)
      let pwm2 := clampPwm cfg pwm1
      Except.ok (pwm2, volts)
  | _, _, _ => Except.error ()

/-- Modelled from the spec's words, for comparison with `calculate_output`:
the affine voltage map anchored at `(PWM_MIN, MIN_VOLTAGE)` and
`(PWM_MAX, MAX_VOLTAGE)`, rounded to two decimal places. -/
def specVoltage (cfg : Config) (pwm : ℤ) : ℚ :=
  round2 (((pwm : ℚ) - (cfg.PWM_MIN : ℚ)) * (cfg.MAX_VOLTAGE - cfg.MIN_VOLTAGE) /
    ((cfg.PWM_MAX : ℚ) - (cfg.PWM_MIN : ℚ)) + cfg.MIN_VOLTAGE)

/-! ## Row offset estimator: `find_offset` -/

/-- Insert into an ascending list, used to model numpy's internal sort. -/
def insertAsc (x : ℕ) : List ℕ → List ℕ
  | [] => [x]
  | y :: ys => if x ≤ y then x :: y :: ys else y :: insertAsc x ys

/-- Ascending sort of a list of naturals. -/
def sortAsc (l : List ℕ) : List ℕ := l.foldr insertAsc []

/-- `np.percentile(xs, q)` with the default linear interpolation: with the
values sorted ascending as `s[0..n-1]`, the result is the value at fractional
position `q * (n-1) / 100`, interpolating linearly between the two
neighbouring entries.  (numpy raises on an empty array; callers guard.) -/
def percentile (xs : List ℕ) (q : ℚ) : ℚ :=
  let s := sortAsc xs
  let pos := q * ((s.length - 1 : ℕ) : ℚ) / 100
  let i := (pos.floor).toNat
  let frac := pos - (pos.floor : ℚ)
  let v1 := ((s.getD i 0 : ℕ) : ℚ)
  let v2 := ((s.getD (i + 1) (s.getD i 0) : ℕ) : ℚ)
  v1 + frac * (v2 - v1)

/-- `np.median(xs)`: numpy's median is the 50th linear-interpolation
percentile (the mean of the two middle entries for even length). -/
def npMedian (xs : List ℕ) : ℚ := percentile xs 50

/-- `mask.sum(axis=0)` for a rectangular mask with `w` columns: the
per-column sum of the pixel values. -/
def columnSum (mask : List (List ℕ)) (w : ℕ) : List ℕ :=
  (List.range w).map fun j => (mask.map fun row => row.getD j 0).sum

/-- The body of the per-mask `try` block of `find_offset` (lines 277-294):
column summation, percentile threshold, qualifying columns, median column,
signal strength, and re-centering.  `none` models an exception caught by the
per-mask handler: a malformed (non-rectangular) numpy array, an empty
column-sum array (percentile raises), an empty qualifying set (median of an
empty array raises), or an out-of-range index. -/
def processMask (cfg : Config) (mask : List (List ℕ)) : Option (ℤ × ℕ) :=
  let w := (mask.headD []).length
  if ¬ (mask.all fun row => row.length = w) then none
  else if w = 0 then none
  else
    let column_sum := columnSum mask w
    let threshold := percentile column_sum cfg.THRESHOLD_PERCENTILE
    let probable := (List.range w).filter fun j =>
      threshold ≤ ((column_sum.getD j 0 : ℕ) : ℚ)
    if probable.isEmpty then none
    else
      let best := pyInt (npMedian probable)
      if 0 ≤ best ∧ best.toNat < w then
        some (best - (CAMERA_CENTER cfg : ℤ), column_sum.getD best.toNat 0)
      else none

/-- The accumulation loop of `find_offset`: offsets and sums are appended in
lockstep at the end of the `try` block; a `None` mask is skipped; a mask whose
processing raises appends to neither list. -/
def find_offset_go (cfg : Config) :
    List (Option (List (List ℕ))) → List ℤ → List ℕ → List ℤ × List ℕ
  | [], offsets, sums => (offsets, sums)
  | m :: rest, offsets, sums =>
    match m with
    | none => find_offset_go cfg rest offsets sums
    | some mask =>
      match processMask cfg mask with
      | some (centroid, strength) =>
        find_offset_go cfg rest (offsets ++ [centroid]) (sums ++ [strength])
      | none => find_offset_go cfg rest offsets sums

/-- `find_offset(masks)`: returns the pair of lists `(offsets, sums)`. -/
def find_offset (cfg : Config) (masks : List (Option (List (List ℕ)))) :
    List ℤ × List ℕ :=
  find_offset_go cfg masks [] []

/-- The per-mask results of a cycle, as `(centroid, strength)` pairs in mask
order, skipping `None` masks and masks whose processing raised. -/
def maskResults (cfg : Config) (masks : List (Option (List (List ℕ)))) :
    List (ℤ × ℕ) :=
  masks.filterMap fun om => om.bind (processMask cfg)

/-! ## Fusion and smoothing: `estimate_row` -/

/-- Tail of `np.argmax`: index of the first maximum, scanning left to right. -/
def argmaxGo (bestIdx bestVal i : ℕ) : List ℕ → ℕ
  | [] => bestIdx
  | y :: ys => if bestVal < y then argmaxGo i y (i + 1) ys
               else argmaxGo bestIdx bestVal (i + 1) ys

/-- `np.argmax` on a list: `none` models the `ValueError` raised on an empty
array. -/
def argmaxIdx : List ℕ → Option ℕ
  | [] => none
  | x :: xs => some (argmaxGo 0 x 1 xs)

/-- The `try` block of `estimate_row` (lines 313-319): the offset of the
strongest camera, falling back to `self.CAMERA_CENTER` when `np.argmax`
raises on an empty array or the indexing raises `IndexError`. -/
def estOf (cfg : Config) (indices : List ℤ) (sums : List ℕ) : ℤ :=
  match argmaxIdx sums with
  | some k =>
    match indices.get? k with
    | some v => v
    | none => (CAMERA_CENTER cfg : ℤ)
  | none => (CAMERA_CENTER cfg : ℤ)

/-- The history-trimming loop of `estimate_row` (lines 321-322):
`while len(self.offset_history) > self.NUM_AVERAGES: self.offset_history.pop(0)`. -/
def trimFront (cap : ℕ) : List ℤ → List ℤ
  | [] => []
  | x :: xs => if xs.length + 1 > cap then trimFront cap xs else x :: xs

/-- `np.mean` of a list of integers, as an exact rational.  (numpy produces
`nan` for an empty list and the subsequent `int()` raises; the claims only
exercise nonempty histories, where this model is exact.) -/
def listMean (l : List ℤ) : ℚ := ((l.sum : ℤ) : ℚ) / ((l.length : ℕ) : ℚ)

/-- `estimate_row(indices, sums)` together with the `self.offset_history`
state it mutates: returns `((est, avg, diff), new_history)` where
`avg = int(np.mean(history))` after appending the newest estimate and
enforcing the capacity bound, and `diff = est - avg`. -/
def estimate_row (cfg : Config) (history : List ℤ)
    (indices : List ℤ) (sums : List ℕ) : (ℤ × ℤ × ℤ) × List ℤ :=
  let est := estOf cfg indices sums
  let history1 := trimFront cfg.NUM_AVERAGES (history ++ [est])
  let avg := pyInt (listMean history1)
  ((est, avg, est - avg), history1)

/-- `init_pid` (line 143): `self.offset_history = [self.CAMERA_CENTER] * self.NUM_AVERAGES`. -/
def seedHistory (cfg : Config) : List ℤ :=
  List.replicate cfg.NUM_AVERAGES ((CAMERA_CENTER cfg : ℕ) : ℤ)

/-- The offset history after a sequence of `estimate_row` calls starting from
the seeded startup state; each call is given by its `(indices, sums)` input. -/
def histAfter (cfg : Config) (calls : List (List ℤ × List ℕ)) : List ℤ :=
  calls.foldl (fun h c => (estimate_row cfg h c.1 c.2).2) (seedHistory cfg)

/-! ## Acquisition health monitor: `capture_images` -/

/-- A captured frame: a grid of pixel samples (bit-identical comparison and
transposition are all the model needs of the pixel type). -/
abbrev Frame := List (List ℕ)

/-- The outcome of `self.cameras[i].read()` for one camera in one cycle:
either the call raises (`exc`, also covering a missing camera handle), or it
returns a success flag `s` and a frame. -/
inductive ReadResult where
  | exc : ReadResult
  | readOk (s : Bool) (frame : Frame) : ReadResult

/-- The per-camera loop body of `capture_images` (lines 208-225), as the list
of slots it appends to `images` for camera `i`:
`prevSlot = none` models `self.images[i]` being out of range (`IndexError`,
caught by the bare `except`, which appends `None`); `some none` models a
stored `None` (the condition is false, the `else` branch appends nothing);
`some (some p)` is a stored frame, compared bit-for-bit after optional
rotation.  A read with `s` false takes the `else` branch and appends
nothing. -/
def captureStep (rotated : Bool) (prevSlot : Option (Option Frame)) :
    ReadResult → List (Option Frame)
  | .exc => [none]
  | .readOk s f =>
    match s, prevSlot with
    | true, none => [none]
    | true, some none => []
    | true, some (some p) =>
      let f1 := if rotated then f.transpose else f
      if f1 = p then [none] else [some f1]
    | false, none => [none]
    | false, some _ => []

/-- The `for i in range(self.CAMERAS)` loop of `capture_images`, building the
returned `images` list. -/
def capture_go (rotated : Bool) (prev : List (Option Frame))
    (reads : List ReadResult) : List ℕ → List (Option Frame)
  | [] => []
  | i :: rest =>
    captureStep rotated (prev.get? i) (reads.getD i ReadResult.exc) ++
      capture_go rotated prev reads rest

/-- `capture_images()`: one read attempt per configured camera, given the
previous cycle's stored frames and each camera's read outcome. -/
def capture_images (cfg : Config) (prev : List (Option Frame))
    (reads : List ReadResult) : List (Option Frame) :=
  capture_go cfg.CAMERA_ROTATED prev reads (List.range cfg.CAMERAS)

/-! ## Concrete configurations and inputs used by witnesses and
counterexamples -/

/-- A representative configuration: the spec's scenario values
(`PWM_MIN = 1000`, `PWM_MAX = 2000`, zero gains, width 640, five averages,
95th-percentile threshold, 0-5 V). -/
def cfgStd : Config :=
  { CAMERAS := 1, CAMERA_WIDTH := 640, CAMERA_HEIGHT := 480,
    CAMERA_ROTATED := false, THRESHOLD_PERCENTILE := 95, NUM_AVERAGES := 5,
    PWM_MIN := 1000, PWM_MAX := 2000, P_COEF := some 0, I_COEF := some 0,
    D_COEF := some 0, MIN_VOLTAGE := 0, MAX_VOLTAGE := 5 }

/-- `cfgStd` with the `P_COEF` key missing from the configuration file. -/
def cfgNoP : Config := { cfgStd with P_COEF := none }

/-- `cfgStd` with a negative proportional gain. -/
def cfgNegP : Config := { cfgStd with P_COEF := some (-1) }

/-- `cfgStd` with a two-entry smoothing window. -/
def cfgCap2 : Config := { cfgStd with NUM_AVERAGES := 2 }

/-- `cfgStd` with the percentile threshold at 100. -/
def cfgP100 : Config := { cfgStd with THRESHOLD_PERCENTILE := 100 }

/-- The spec scenario's column-energy profile: 640 columns, all zero except
column 400 with value 1000. -/
def spikeRow : List ℕ := List.replicate 400 0 ++ 1000 :: List.replicate 239 0

/-- A one-row mask whose column sums are exactly `spikeRow`. -/
def spikeMask : List (List ℕ) := [spikeRow]

/-- A trivial stored frame for the capture counterexample. -/
def frameZ : Frame := [[0]]

end AgriVision

namespace AgriVision

/-! ## Helper lemmas about the Python arithmetic primitives -/

theorem ratFloor_eq (q : ℚ) : q.floor = ⌊q⌋ :=
  (Rat.floor_def' q).trans Rat.floor_def.symm

theorem pyInt_eq (q : ℚ) : pyInt q = if 0 ≤ q then ⌊q⌋ else ⌈q⌉ := by
  unfold pyInt
  rw [ratFloor_eq, ratFloor_eq, Int.floor_neg, neg_neg]

theorem pyInt_intCast (z : ℤ) : pyInt (z : ℚ) = z := by
  rw [pyInt_eq]
  split <;> simp

theorem pyInt_mono {x y : ℚ} (h : x ≤ y) : pyInt x ≤ pyInt y := by
  rw [pyInt_eq, pyInt_eq]
  by_cases hx : 0 ≤ x <;> by_cases hy : 0 ≤ y
  · rw [if_pos hx, if_pos hy]
    exact Int.floor_le_floor h
  · exact absurd (hx.trans h) hy
  · rw [if_neg hx, if_pos hy]
    calc ⌈x⌉ ≤ 0 := Int.ceil_le.mpr (by push_cast; linarith)
      _ ≤ ⌊y⌋ := Int.floor_nonneg.mpr hy
  · rw [if_neg hx, if_neg hy]
    exact Int.ceil_le_ceil h

theorem pyInt_near (q : ℚ) : |((pyInt q : ℤ) : ℚ) - q| < 1 := by
  rw [pyInt_eq, abs_sub_lt_iff]
  split
  · constructor
    · have := Int.floor_le q
      linarith
    · have := Int.sub_one_lt_floor q
      linarith
  · constructor
    · have := Int.ceil_lt_add_one q
      linarith
    · have := Int.le_ceil q
      linarith

/-! ## Helper lemmas about the control law -/

theorem clampPwm_mem (cfg : Config) (h : cfg.PWM_MIN ≤ cfg.PWM_MAX) (x : ℤ) :
    cfg.PWM_MIN ≤ clampPwm cfg x ∧ clampPwm cfg x ≤ cfg.PWM_MAX := by
  unfold clampPwm
  split_ifs <;> omega

theorem clampPwm_mono (cfg : Config) (h : cfg.PWM_MIN ≤ cfg.PWM_MAX)
    {x y : ℤ} (hxy : x ≤ y) : clampPwm cfg x ≤ clampPwm cfg y := by
  unfold clampPwm
  split_ifs <;> omega

theorem clampPwm_idem (cfg : Config) (h : cfg.PWM_MIN ≤ cfg.PWM_MAX) (x : ℤ) :
    clampPwm cfg (clampPwm cfg x) = clampPwm cfg x := by
  unfold clampPwm
  split_ifs <;> omega

/-- The success path of `calculate_output`, written out. -/
theorem calculate_output_eq_ok (cfg : Config) (kp ki kd : ℚ)
    (hP : cfg.P_COEF = some kp) (hI : cfg.I_COEF = some ki)
    (hD : cfg.D_COEF = some kd) (hne : ¬ cfg.PWM_MAX = cfg.PWM_MIN)
    (e a d : ℚ) :
    calculate_output cfg e a d =
      Except.ok
        (clampPwm cfg (clampPwm cfg
          (pyInt (e * kp + a * ki + d * kd + (CENTER_PWM cfg : ℚ)))),
         round2 ((clampPwm cfg
            (pyInt (e * kp + a * ki + d * kd + (CENTER_PWM cfg : ℚ))) : ℚ) *
            (cfg.MAX_VOLTAGE - cfg.MIN_VOLTAGE) /
            ((cfg.PWM_MAX : ℚ) - (cfg.PWM_MIN : ℚ)) + cfg.MIN_VOLTAGE)) := by
  unfold calculate_output
  rw [hP, hI, hD]
  simp [hne]

/-- Inversion of the success path: a returned pair determines the command and
the voltage formula actually used. -/
theorem calculate_output_ok_inv (cfg : Config) (e a d : ℚ) (pwm : ℤ) (v : ℚ)
    (h : calculate_output cfg e a d = Except.ok (pwm, v)) :
    ∃ kp ki kd, cfg.P_COEF = some kp ∧ cfg.I_COEF = some ki ∧
      cfg.D_COEF = some kd ∧ ¬ cfg.PWM_MAX = cfg.PWM_MIN ∧
      pwm = clampPwm cfg (clampPwm cfg
        (pyInt (e * kp + a * ki + d * kd + (CENTER_PWM cfg : ℚ)))) ∧
      v = round2 ((clampPwm cfg
        (pyInt (e * kp + a * ki + d * kd + (CENTER_PWM cfg : ℚ))) : ℚ) *
        (cfg.MAX_VOLTAGE - cfg.MIN_VOLTAGE) /
        ((cfg.PWM_MAX : ℚ) - (cfg.PWM_MIN : ℚ)) + cfg.MIN_VOLTAGE) := by
  rcases hP : cfg.P_COEF with _ | kp <;>
    rcases hI : cfg.I_COEF with _ | ki <;>
    rcases hD : cfg.D_COEF with _ | kd <;>
    (unfold calculate_output at h; rw [hP, hI, hD] at h) <;>
    simp only [reduceCtorEq] at h
  by_cases hne : cfg.PWM_MAX = cfg.PWM_MIN
  · simp [hne] at h
  · simp only [hne, if_false] at h
    obtain ⟨h1, h2⟩ := Prod.mk.injEq .. ▸ (Except.ok.injEq _ _ ▸ h)
    exact ⟨kp, ki, kd, rfl, rfl, rfl, hne, h1.symm, h2.symm⟩

/-- The failure path of `calculate_output`: any of the arithmetic faults
makes the call raise instead of returning. -/
theorem calculate_output_eq_error (cfg : Config) (e a d : ℚ)
    (h : cfg.P_COEF = none ∨ cfg.I_COEF = none ∨ cfg.D_COEF = none ∨
      cfg.PWM_MAX = cfg.PWM_MIN) :
    calculate_output cfg e a d = Except.error () := by
  rcases hP : cfg.P_COEF with _ | kp <;>
    rcases hI : cfg.I_COEF with _ | ki <;>
    rcases hD : cfg.D_COEF with _ | kd <;>
    (unfold calculate_output; rw [hP, hI, hD]) <;> try rfl
  have hMM : cfg.PWM_MAX = cfg.PWM_MIN := by
    rcases h with h | h | h | h
    · exact absurd (hP.symm.trans h) (by simp)
    · exact absurd (hI.symm.trans h) (by simp)
    · exact absurd (hD.symm.trans h) (by simp)
    · exact h
  simp [hMM]

/-! ## Helper lemmas about the offset history -/

theorem trimFront_eq_drop (cap : ℕ) (l : List ℤ) :
    trimFront cap l = l.drop (l.length - cap) := by
  induction l with
  | nil => simp [trimFront]
  | cons x xs ih =>
    unfold trimFront
    split
    · rename_i hgt
      rw [ih]
      have he : xs.length + 1 - cap = (xs.length - cap) + 1 := by omega
      rw [List.length_cons, he, List.drop_succ_cons]
    · rename_i hle
      have he : xs.length + 1 - cap = 0 := by omega
      rw [List.length_cons, he, List.drop_zero]

theorem estimate_row_hist (cfg : Config) (h : List ℤ) (indices : List ℤ)
    (sums : List ℕ) :
    (estimate_row cfg h indices sums).2 =
      (h ++ [estOf cfg indices sums]).drop
        ((h.length + 1) - cfg.NUM_AVERAGES) := by
  simp only [estimate_row]
  rw [trimFront_eq_drop]
  simp

/-- Sliding-window arithmetic: dropping to the window after one append, then
appending more and dropping to the window again, is the same as one drop. -/
theorem dropWindow_step (cap : ℕ) (h tail : List ℤ) (e : ℤ) :
    (((h ++ [e]).drop ((h.length + 1) - cap)) ++ tail).drop
        ((((h ++ [e]).drop ((h.length + 1) - cap)).length + tail.length) - cap)
      = (h ++ e :: tail).drop ((h.length + (tail.length + 1)) - cap) := by
  have hm : (h.length + 1) - cap ≤ (h ++ [e]).length := by simp
  rw [← List.drop_append_of_le_length hm, List.drop_drop]
  have hlen : ((h ++ [e]).drop ((h.length + 1) - cap)).length
      = (h.length + 1) - ((h.length + 1) - cap) := by simp
  rw [hlen]
  have hgoal : (h.length + 1 - cap) +
      (h.length + 1 - (h.length + 1 - cap) + tail.length - cap)
      = (h.length + (tail.length + 1)) - cap := by omega
  rw [hgoal, List.append_assoc, List.singleton_append]

theorem histAfter_foldl (cfg : Config) :
    ∀ (calls : List (List ℤ × List ℕ)) (h : List ℤ),
      h.length ≤ cfg.NUM_AVERAGES →
      calls.foldl (fun acc c => (estimate_row cfg acc c.1 c.2).2) h =
        (h ++ calls.map fun c => estOf cfg c.1 c.2).drop
          ((h.length + calls.length) - cfg.NUM_AVERAGES) := by
  intro calls
  induction calls with
  | nil =>
    intro h hlen
    simp [Nat.sub_eq_zero_of_le hlen]
  | cons c rest ih =>
    intro h hlen
    rw [List.foldl_cons]
    have hstep : ((estimate_row cfg h c.1 c.2).2).length ≤ cfg.NUM_AVERAGES := by
      rw [estimate_row_hist, List.length_drop]
      simp only [List.length_append, List.length_cons, List.length_nil]
      omega
    rw [ih _ hstep, estimate_row_hist, List.length_drop]
    simp only [List.length_append, List.length_cons, List.length_nil,
      List.map_cons, List.length_map]
    have := dropWindow_step cfg.NUM_AVERAGES h
      (rest.map fun c => estOf cfg c.1 c.2) (estOf cfg c.1 c.2)
    simp only [List.length_drop, List.length_append, List.length_cons,
      List.length_nil, List.length_map] at this
    convert this using 3

/-! ## Helper lemmas about `find_offset` -/

theorem find_offset_go_spec (cfg : Config) :
    ∀ (masks : List (Option (List (List ℕ)))) (offsets : List ℤ)
      (sums : List ℕ),
      find_offset_go cfg masks offsets sums =
        (offsets ++ (maskResults cfg masks).map Prod.fst,
         sums ++ (maskResults cfg masks).map Prod.snd) := by
  intro masks
  induction masks with
  | nil => intro offsets sums; simp [find_offset_go, maskResults]
  | cons m rest ih =>
    intro offsets sums
    match m with
    | none => simp [find_offset_go, maskResults, List.filterMap_cons, ih]
    | some mask =>
      cases hp : processMask cfg mask with
      | none =>
        simp [find_offset_go, maskResults, List.filterMap_cons, hp, ih]
      | some pr =>
        obtain ⟨centroid, strength⟩ := pr
        simp [find_offset_go, maskResults, List.filterMap_cons, hp, ih]

theorem find_offset_eq (cfg : Config) (masks : List (Option (List (List ℕ)))) :
    find_offset cfg masks =
      ((maskResults cfg masks).map Prod.fst,
       (maskResults cfg masks).map Prod.snd) := by
  unfold find_offset
  rw [find_offset_go_spec]
  simp

theorem zip_map_fst_snd {α β : Type} :
    ∀ l : List (α × β), (l.map Prod.fst).zip (l.map Prod.snd) = l := by
  intro l
  induction l with
  | nil => rfl
  | cons p rest ih => simp [ih]

/-- A successful per-mask result pairs the re-centered column with the
column-energy read off at that same column. -/
theorem processMask_pairing (cfg : Config) (mask : List (List ℕ))
    (centroid : ℤ) (strength : ℕ)
    (h : processMask cfg mask = some (centroid, strength)) :
    ∃ b : ℕ, centroid = (b : ℤ) - (CAMERA_CENTER cfg : ℤ) ∧
      (columnSum mask (mask.headD []).length).getD b 0 = strength := by
  simp only [processMask] at h
  split_ifs at h with h1 h2 h3 h4
  have h' := Option.some.inj h
  injection h' with hc hs
  refine ⟨_, ?_, hs⟩
  rw [Int.toNat_of_nonneg h4.1]
  exact hc.symm

/-! ## Helper lemmas about `capture_images` -/

theorem captureStep_len (rotated : Bool) (prevSlot : Option (Option Frame))
    (r : ReadResult) :
    (captureStep rotated prevSlot r).length ≤ 1 := by
  rcases r with _ | ⟨s, f⟩
  · simp [captureStep]
  · rcases s <;> rcases prevSlot with _ | ⟨_ | p⟩
    · simp [captureStep]
    · simp [captureStep]
    · simp [captureStep]
    · simp [captureStep]
    · simp [captureStep]
    · simp only [captureStep]
      split <;> split <;> simp

theorem capture_go_eq_flatMap (rotated : Bool) (prev : List (Option Frame))
    (reads : List ReadResult) :
    ∀ idxs : List ℕ,
      capture_go rotated prev reads idxs =
        idxs.flatMap fun i =>
          captureStep rotated (prev.get? i) (reads.getD i ReadResult.exc) := by
  intro idxs
  induction idxs with
  | nil => rfl
  | cons i rest ih => simp [capture_go, ih]

theorem capture_go_len (rotated : Bool) (prev : List (Option Frame))
    (reads : List ReadResult) :
    ∀ idxs : List ℕ, (capture_go rotated prev reads idxs).length ≤ idxs.length := by
  intro idxs
  induction idxs with
  | nil => simp [capture_go]
  | cons i rest ih =>
    simp only [capture_go, List.length_append, List.length_cons]
    have := captureStep_len rotated (prev.get? i) (reads.getD i ReadResult.exc)
    omega

/-! ## Concrete evaluations of the estimator on the spec's spike scenario.
Each pipeline stage of `find_offset` is evaluated structurally (lemmas about
`replicate`, `range` and the insertion sort), so the kernel never has to
brute-force a 640-column computation. -/

theorem spikeRow_length : spikeRow.length = 640 := by
  unfold spikeRow
  rw [List.length_append, List.length_replicate, List.length_cons,
    List.length_replicate]

theorem getD_replicate_lt {x d : ℕ} {n j : ℕ} (h : j < n) :
    (List.replicate n x).getD j d = x := by
  induction n generalizing j with
  | zero => omega
  | succ k ih =>
    rw [List.replicate_succ]
    cases j with
    | zero => rfl
    | succ m =>
      rw [List.getD_cons_succ]
      exact ih (by omega)

/-- Every column of the spike profile other than 400 (in range or not) has
energy 0. -/
theorem spikeRow_getD_ne {j : ℕ} (h : j ≠ 400) : spikeRow.getD j 0 = 0 := by
  unfold spikeRow
  rcases Nat.lt_or_ge j 400 with hlt | hge
  · rw [List.getD_append _ _ _ _ (by rw [List.length_replicate]; exact hlt)]
    exact getD_replicate_lt hlt
  · rw [List.getD_append_right _ _ _ _ (by rw [List.length_replicate]; exact hge)]
    have hpos : 0 < j - (List.replicate 400 (0 : ℕ)).length := by
      simp only [List.length_replicate]
      omega
    rcases Nat.exists_eq_add_of_lt hpos with ⟨k, hk⟩
    rw [show j - (List.replicate 400 (0 : ℕ)).length = k + 1 by omega,
      List.getD_cons_succ]
    rcases Nat.lt_or_ge k 239 with hk2 | hk2
    · exact getD_replicate_lt hk2
    · exact List.getD_eq_default _ _ (by rw [List.length_replicate]; exact hk2)

theorem spikeRow_getD_400 : spikeRow.getD 400 0 = 1000 := by
  unfold spikeRow
  rw [List.getD_append_right _ _ _ _ (by rw [List.length_replicate])]
  rw [List.length_replicate, Nat.sub_self]
  rfl

/-- Inserting 0 into any list of naturals puts it at the front. -/
theorem insertAsc_zero (l : List ℕ) : insertAsc 0 l = 0 :: l := by
  cases l <;> simp [insertAsc]

theorem foldr_insertAsc_zeros (n : ℕ) (l : List ℕ) :
    (List.replicate n 0).foldr insertAsc l = List.replicate n 0 ++ l := by
  induction n with
  | zero => simp
  | succ k ih => simp [List.replicate_succ, insertAsc_zero, ih]

theorem insertAsc_pos_replicate {x : ℕ} (hx : ¬ x ≤ 0) (n : ℕ) :
    insertAsc x (List.replicate n 0) = List.replicate n 0 ++ [x] := by
  induction n with
  | zero => simp [insertAsc]
  | succ k ih => simp [List.replicate_succ, insertAsc, hx, ih]

/-- The ascending sort of the spike profile: 639 zeros then the spike. -/
theorem sortAsc_spikeRow : sortAsc spikeRow = List.replicate 639 0 ++ [1000] := by
  unfold sortAsc spikeRow
  rw [List.foldr_append, List.foldr_cons, foldr_insertAsc_zeros 239 [],
    List.append_nil, insertAsc_pos_replicate (by decide) 239,
    foldr_insertAsc_zeros 400 (List.replicate 239 0 ++ [1000]),
    ← List.append_assoc, ← List.replicate_add]

theorem sortedSpike_getD_zero {j : ℕ} (d : ℕ) (h : j < 639) :
    (List.replicate 639 0 ++ [1000]).getD j d = 0 := by
  rw [List.getD_append _ _ _ _ (by rw [List.length_replicate]; exact h)]
  exact getD_replicate_lt h

theorem sortedSpike_getD_639 (d : ℕ) :
    (List.replicate 639 0 ++ [1000]).getD 639 d = 1000 := by
  rw [List.getD_append_right _ _ _ _ (by rw [List.length_replicate])]
  rw [List.length_replicate, Nat.sub_self]
  rfl

/-- A sorted list is a fixed point of the insertion sort. -/
theorem sortAsc_of_sorted : ∀ {l : List ℕ}, l.Sorted (· ≤ ·) → sortAsc l = l := by
  intro l
  induction l with
  | nil => intro _; rfl
  | cons x xs ih =>
    intro h
    rw [List.sorted_cons] at h
    unfold sortAsc at ih ⊢
    rw [List.foldr_cons, ih h.2]
    cases xs with
    | nil => rfl
    | cons y ys =>
      have hxy : x ≤ y := h.1 y (by simp)
      simp [insertAsc, hxy]

theorem sortAsc_range (n : ℕ) : sortAsc (List.range n) = List.range n :=
  sortAsc_of_sorted (List.sorted_le_range n)

theorem getD_range {n j : ℕ} (d : ℕ) (h : j < n) :
    (List.range n).getD j d = j := by
  rw [List.getD_eq_getElem _ _ (by simpa using h)]
  exact List.getElem_range _ _

/-- One generic evaluation of `percentile` from the sorted list, the
interpolation position, and the two neighbouring entries. -/
theorem percentile_eval (xs s : List ℕ) (q posv : ℚ) (n i v1 v2 : ℕ)
    (hs : sortAsc xs = s) (hn : s.length = n)
    (hpos : q * ((n - 1 : ℕ) : ℚ) / 100 = posv)
    (hfl : posv.floor = (i : ℤ))
    (hv1 : s.getD i 0 = v1) (hv2 : s.getD (i + 1) v1 = v2) :
    percentile xs q = (v1 : ℚ) + (posv - (i : ℚ)) * ((v2 : ℚ) - (v1 : ℚ)) := by
  simp only [percentile, hs, hn, hpos, hfl, Int.toNat_natCast, hv1, hv2,
    Int.cast_natCast]

/-- The 95th percentile of a profile that is zero outside one spike: position
`0.95 * 639 = 607.05` of the ascending sort falls among the zeros, so the
threshold degenerates to 0. -/
theorem spike_threshold_p95 : percentile spikeRow (95 : ℚ) = 0 := by
  rw [percentile_eval spikeRow (List.replicate 639 0 ++ [1000]) 95 (12141 / 20)
    640 607 0 0 sortAsc_spikeRow
    (by rw [List.length_append, List.length_replicate, List.length_cons,
      List.length_nil])
    (by norm_num)
    (by with_unfolding_all rfl) (sortedSpike_getD_zero 0 (by norm_num))
    (sortedSpike_getD_zero 0 (by norm_num))]
  norm_num

/-- At the 100th percentile the threshold is the maximum, the spike value. -/
theorem spike_threshold_p100 : percentile spikeRow (100 : ℚ) = 1000 := by
  rw [percentile_eval spikeRow (List.replicate 639 0 ++ [1000]) 100 639
    640 639 1000 1000 sortAsc_spikeRow
    (by rw [List.length_append, List.length_replicate, List.length_cons,
      List.length_nil])
    (by norm_num)
    (by with_unfolding_all rfl) (sortedSpike_getD_639 0)
    (List.getD_eq_default _ _ (by rw [List.length_append,
      List.length_replicate, List.length_cons, List.length_nil]))]
  norm_num

/-- With threshold 0 every one of the 640 columns qualifies. -/
theorem spike_probable_p95 :
    (List.range 640).filter (fun j => (0 : ℚ) ≤ ((spikeRow.getD j 0 : ℕ) : ℚ)) =
      List.range 640 :=
  List.filter_eq_self.mpr fun _ _ => decide_eq_true (Nat.cast_nonneg _)

set_option maxRecDepth 40000 in
/-- With threshold 1000 only the spike column 400 qualifies. -/
theorem spike_probable_p100 :
    (List.range 640).filter (fun j => (1000 : ℚ) ≤ ((spikeRow.getD j 0 : ℕ) : ℚ)) =
      [400] := by
  rw [List.filter_congr (q := fun j => decide (j = 400))]
  · with_unfolding_all rfl
  · intro j _
    by_cases hj : j = 400
    · subst hj
      simp only [spikeRow_getD_400]
      decide
    · simp only [spikeRow_getD_ne hj]
      rw [decide_eq_false hj]
      decide

theorem spike_median_eval : npMedian (List.range 640) = 639 / 2 := by
  unfold npMedian
  rw [percentile_eval (List.range 640) (List.range 640) 50 (639 / 2) 640 319
    319 320 (sortAsc_range 640) (List.length_range 640) (by norm_num)
    (by with_unfolding_all rfl) (getD_range 0 (by norm_num))
    (getD_range 319 (by norm_num))]
  norm_num

/-- The truncated median of all 640 columns: `int(319.5) = 319`. -/
theorem spike_median_p95 : pyInt (npMedian (List.range 640)) = 319 := by
  rw [spike_median_eval]
  with_unfolding_all rfl

theorem spike_median_p100 : pyInt (npMedian [400]) = 400 := by
  with_unfolding_all rfl

theorem spike_range_ne : (List.range 640).isEmpty = false := by
  rw [List.isEmpty_eq_false_iff_exists_mem]
  exact ⟨0, by simp⟩

theorem spike_strength_p95 : spikeRow[(319 : ℕ)]?.getD 0 = 0 := by
  rw [← List.get?_eq_getElem?, ← List.getD_eq_getD_get?]
  exact spikeRow_getD_ne (by decide)

theorem spike_strength_p100 : spikeRow[(400 : ℕ)]?.getD 0 = 1000 := by
  rw [← List.get?_eq_getElem?, ← List.getD_eq_getD_get?]
  exact spikeRow_getD_400

theorem spikeMask_width : (spikeMask.headD []).length = 640 :=
  spikeRow_length

theorem spikeMask_rect : (spikeMask.all fun row => row.length = 640) = true := by
  unfold spikeMask
  rw [List.all_cons, List.all_nil, spikeRow_length]
  rfl

/-- Reading every index of a list back off with `getD` reproduces the
list. -/
theorem map_getD_range :
    ∀ (l : List ℕ), (List.range l.length).map (fun j => l.getD j 0) = l := by
  intro l
  induction l with
  | nil => simp
  | cons x xs ih =>
    rw [List.length_cons, List.range_succ_eq_map, List.map_cons, List.map_map]
    have hcomp : ((fun j => (x :: xs).getD j 0) ∘ Nat.succ) =
        fun j => xs.getD j 0 := by
      funext j
      simp [List.getD_cons_succ]
    rw [hcomp, ih]
    rfl

/-- For a one-row mask the column sums are the row itself. -/
theorem columnSum_single (row : List ℕ) : columnSum [row] row.length = row := by
  unfold columnSum
  simp only [List.map_cons, List.map_nil, List.sum_cons, List.sum_nil,
    add_zero]
  exact map_getD_range row

theorem spikeMask_columnSum : columnSum spikeMask 640 = spikeRow := by
  have h := columnSum_single spikeRow
  rw [spikeRow_length] at h
  exact h

set_option maxRecDepth 200000 in
theorem processMask_spike_p95 : processMask cfgStd spikeMask = some (-1, 0) := by
  simp only [processMask, spikeMask_width, spikeMask_rect,
    show cfgStd.THRESHOLD_PERCENTILE = 95 from rfl, spikeMask_columnSum,
    spike_threshold_p95, spike_probable_p95, spike_median_p95, spike_range_ne,
    show CAMERA_CENTER cfgStd = 320 from rfl, show Int.toNat 319 = 319 from rfl]
  norm_num
  exact spike_strength_p95

set_option maxRecDepth 200000 in
theorem processMask_spike_p100 : processMask cfgP100 spikeMask = some (80, 1000) := by
  simp only [processMask, spikeMask_width, spikeMask_rect,
    show cfgP100.THRESHOLD_PERCENTILE = 100 from rfl, spikeMask_columnSum,
    spike_threshold_p100, spike_probable_p100, spike_median_p100,
    show ([400] : List ℕ).isEmpty = false from rfl,
    show CAMERA_CENTER cfgP100 = 320 from rfl, show Int.toNat 400 = 400 from rfl]
  norm_num
  exact spike_strength_p100

/-- With the 95th-percentile threshold, more than 95 percent of the spike
profile's columns are zero, so the percentile threshold degenerates to 0,
every column qualifies, and the median of all 640 columns (319, truncated
from 319.5) is chosen: offset `319 - 320 = -1`, strength
`column_sum[319] = 0`. -/
theorem spike_eval_p95 : find_offset cfgStd [some spikeMask] = ([-1], [0]) := by
  have hb : (some spikeMask).bind (processMask cfgStd) = some (-1, 0) := by
    rw [Option.some_bind, processMask_spike_p95]
  have hm : maskResults cfgStd [some spikeMask] = [(-1, 0)] := by
    unfold maskResults
    rw [@List.filterMap_cons_some (Option (List (List ℕ))) (ℤ × ℕ)
      (fun om => om.bind (processMask cfgStd)) (some spikeMask) []
      ((-1 : ℤ), (0 : ℕ)) hb, List.filterMap_nil]
  rw [find_offset_eq, hm]
  rfl

/-- With the percentile threshold at 100, the threshold is the maximum 1000,
only the spike column 400 qualifies, and the claimed behavior appears:
offset `400 - 320 = 80`, strength 1000. -/
theorem spike_eval_p100 : find_offset cfgP100 [some spikeMask] = ([80], [1000]) := by
  have hb : (some spikeMask).bind (processMask cfgP100) = some (80, 1000) := by
    rw [Option.some_bind, processMask_spike_p100]
  have hm : maskResults cfgP100 [some spikeMask] = [(80, 1000)] := by
    unfold maskResults
    rw [@List.filterMap_cons_some (Option (List (List ℕ))) (ℤ × ℕ)
      (fun om => om.bind (processMask cfgP100)) (some spikeMask) []
      ((80 : ℤ), (1000 : ℕ)) hb, List.filterMap_nil]
  rw [find_offset_eq, hm]
  rfl

/-! ## Claims -/

/-- C1: the claim states that with zero gains `calculate_output` returns the
center command and that this center equals the midpoint
`(PWM_MIN + PWM_MAX) / 2` — 1500 for `PWM_MIN = 1000`, `PWM_MAX = 2000`.
The code computes `CENTER_PWM = int(PWM_MIN + PWM_MAX / 2.0)`, which for
1000/2000 is 2000, not the midpoint 1500: with zero gains the returned
command is 2000. -/
theorem C1_center_pwm_not_midpoint :
    CENTER_PWM cfgStd = 2000 ∧
    calculate_output cfgStd 7 3 1 = Except.ok (2000, 10) ∧
    CENTER_PWM cfgStd ≠ (cfgStd.PWM_MIN + cfgStd.PWM_MAX) / 2 := by
  refine ⟨by with_unfolding_all rfl, by with_unfolding_all rfl, ?_⟩
  intro hcon
  have h2000 : CENTER_PWM cfgStd = 2000 := by with_unfolding_all rfl
  rw [h2000] at hcon
  exact absurd hcon (by decide)

/-- C2 counterexample: the claim states that on an arithmetic failure
`calculate_output` returns normally with the pair (center command, voltage).
With `P_COEF` missing, the call instead raises (`UnboundLocalError` at the
`return`, since the handler never binds `volts`): the result is an error, not
a returned pair. -/
theorem C2_counterexample :
    calculate_output cfgNoP 1 2 3 = Except.error () := by
  with_unfolding_all rfl

/-- C2 (amended): on any arithmetic failure of the control law (a missing
PID coefficient, or `PWM_MAX = PWM_MIN` making the voltage expression divide
by zero), `calculate_output` does not return a pair at all: the `except`
handler sets the command to the center but leaves the voltage unbound, so
the `return` statement raises `UnboundLocalError`, which propagates to the
caller `run` (which absorbs it with its own `except UnboundLocalError`
handler, abandoning the cycle). -/
theorem C2_failure_raises (cfg : Config) (e a d : ℚ)
    (h : cfg.P_COEF = none ∨ cfg.I_COEF = none ∨ cfg.D_COEF = none ∨
      cfg.PWM_MAX = cfg.PWM_MIN) :
    calculate_output cfg e a d = Except.error () ∧
    ∀ (pwm : ℤ) (v : ℚ), calculate_output cfg e a d ≠ Except.ok (pwm, v) := by
  have herr := calculate_output_eq_error cfg e a d h
  exact ⟨herr, fun pwm v hok => by rw [herr] at hok; exact Except.noConfusion hok⟩

theorem C2_failure_raises_witness :
    (cfgNoP.P_COEF = none ∨ cfgNoP.I_COEF = none ∨ cfgNoP.D_COEF = none ∨
      cfgNoP.PWM_MAX = cfgNoP.PWM_MIN) ∧
    (calculate_output cfgNoP 0 0 0 = Except.error () ∧
     ∀ (pwm : ℤ) (v : ℚ), calculate_output cfgNoP 0 0 0 ≠ Except.ok (pwm, v)) :=
  ⟨Or.inl rfl, C2_failure_raises cfgNoP 0 0 0 (Or.inl rfl)⟩

/-- C3: the claim states that with no samples the instantaneous estimate is
0 (the image center in the re-centered offset coordinates every sample
uses).  The code's fallback is `est = self.CAMERA_CENTER`, the absolute
center column: with width 640 it returns 320, not 0. -/
theorem C3_empty_fallback_not_recentered :
    (estimate_row cfgStd (seedHistory cfgStd) [] []).1.1 = 320 ∧
    CAMERA_CENTER cfgStd = 320 ∧ (320 : ℤ) ≠ 0 := by
  refine ⟨by with_unfolding_all rfl, by with_unfolding_all rfl, by decide⟩

/-- C4 counterexample: the claim states the returned average equals the
arithmetic mean of the post-append history for any contents, including
non-integer means.  With capacity 2, history `[0, 0]` and new estimate 1,
the post-append history is `[0, 1]` with mean 1/2, but the code returns
`int(np.mean(...)) = 0`. -/
theorem C4_counterexample :
    estimate_row cfgCap2 [0, 0] [1] [5] = ((1, 0, 1), [0, 1]) ∧
    listMean [0, 1] = 1/2 ∧
    ((0 : ℤ) : ℚ) ≠ listMean [0, 1] := by
  refine ⟨by with_unfolding_all rfl, by with_unfolding_all rfl, ?_⟩
  have hm : listMean [0, 1] = 1/2 := by with_unfolding_all rfl
  rw [hm]
  intro hcon
  exact absurd hcon (by with_unfolding_all decide)

/-- C4 (amended): the average returned by `estimate_row` is the *truncation
toward zero* (`int(...)`) of the arithmetic mean of the post-append,
capacity-bounded history — it equals the exact mean whenever that mean is an
integer, and lies strictly within distance 1 of it otherwise; the
differential equals the instantaneous estimate minus that truncated
average. -/
theorem C4_avg_is_truncated_mean (cfg : Config) (h : List ℤ)
    (indices : List ℤ) (sums : List ℕ) (hcap : 1 ≤ cfg.NUM_AVERAGES) :
    (estimate_row cfg h indices sums).2 ≠ [] ∧
    |((estimate_row cfg h indices sums).1.2.1 : ℚ) -
        listMean (estimate_row cfg h indices sums).2| < 1 ∧
    (∀ z : ℤ, listMean (estimate_row cfg h indices sums).2 = (z : ℚ) →
      (estimate_row cfg h indices sums).1.2.1 = z) ∧
    (estimate_row cfg h indices sums).1.2.2 =
      (estimate_row cfg h indices sums).1.1 -
        (estimate_row cfg h indices sums).1.2.1 := by
  have havg : (estimate_row cfg h indices sums).1.2.1 =
      pyInt (listMean (estimate_row cfg h indices sums).2) := by
    simp only [estimate_row]
  refine ⟨?_, ?_, ?_, ?_⟩
  · rw [estimate_row_hist]
    intro hcon
    have hlen := congrArg List.length hcon
    rw [List.length_drop] at hlen
    simp only [List.length_append, List.length_cons, List.length_nil] at hlen
    omega
  · rw [havg]
    exact pyInt_near _
  · intro z hz
    rw [havg, hz, pyInt_intCast]
  · simp only [estimate_row]

theorem C4_avg_is_truncated_mean_witness :
    1 ≤ cfgCap2.NUM_AVERAGES ∧
    ((estimate_row cfgCap2 [0, 0] [1] [5]).2 ≠ [] ∧
     |((estimate_row cfgCap2 [0, 0] [1] [5]).1.2.1 : ℚ) -
        listMean (estimate_row cfgCap2 [0, 0] [1] [5]).2| < 1 ∧
     (∀ z : ℤ, listMean (estimate_row cfgCap2 [0, 0] [1] [5]).2 = (z : ℚ) →
        (estimate_row cfgCap2 [0, 0] [1] [5]).1.2.1 = z) ∧
     (estimate_row cfgCap2 [0, 0] [1] [5]).1.2.2 =
        (estimate_row cfgCap2 [0, 0] [1] [5]).1.1 -
          (estimate_row cfgCap2 [0, 0] [1] [5]).1.2.1) :=
  ⟨by decide, C4_avg_is_truncated_mean cfgCap2 [0, 0] [1] [5] (by decide)⟩

/-- C5 counterexample: the claim states the reported voltage is the affine
map sending `PWM_MIN` to `MIN_VOLTAGE` and `PWM_MAX` to `MAX_VOLTAGE`
applied to the clamped command, so in particular
`voltage(PWM_MAX) = MAX_VOLTAGE`.  With `PWM_MIN = 1000`, `PWM_MAX = 2000`,
0-5 V and zero gains the returned command is `PWM_MAX = 2000` but the
reported voltage is 10, not `MAX_VOLTAGE = 5` (the anchored map would give
5, as `specVoltage` shows). -/
theorem C5_counterexample :
    calculate_output cfgStd 0 0 0 = Except.ok (2000, 10) ∧
    specVoltage cfgStd 2000 = 5 ∧
    (10 : ℚ) ≠ 5 := by
  refine ⟨by with_unfolding_all rfl, by with_unfolding_all rfl, ?_⟩
  intro hcon
  exact absurd hcon (by with_unfolding_all decide)

/-- C5 (amended): the reported voltage is
`round2(command * (MAX_VOLTAGE - MIN_VOLTAGE) / (PWM_MAX - PWM_MIN) + MIN_VOLTAGE)`
applied to the returned (clamped) command: an affine map with the claimed
slope but anchored at `(0, MIN_VOLTAGE)` rather than at
`(PWM_MIN, MIN_VOLTAGE)` — the code's formula omits the `- PWM_MIN` shift,
so it agrees with the claimed anchored map only when `PWM_MIN = 0`. -/
theorem C5_voltage_slope_only (cfg : Config) (e a d : ℚ) (pwm : ℤ) (v : ℚ)
    (hMM : cfg.PWM_MIN ≤ cfg.PWM_MAX)
    (h : calculate_output cfg e a d = Except.ok (pwm, v)) :
    v = round2 ((pwm : ℚ) * (cfg.MAX_VOLTAGE - cfg.MIN_VOLTAGE) /
      ((cfg.PWM_MAX : ℚ) - (cfg.PWM_MIN : ℚ)) + cfg.MIN_VOLTAGE) := by
  obtain ⟨kp, ki, kd, hP, hI, hD, hne, hpwm, hv⟩ :=
    calculate_output_ok_inv cfg e a d pwm v h
  rw [hpwm, clampPwm_idem cfg hMM]
  exact hv

theorem C5_voltage_slope_only_witness :
    cfgStd.PWM_MIN ≤ cfgStd.PWM_MAX ∧
    (10 : ℚ) = round2 (((2000 : ℤ) : ℚ) *
      (cfgStd.MAX_VOLTAGE - cfgStd.MIN_VOLTAGE) /
      ((cfgStd.PWM_MAX : ℚ) - (cfgStd.PWM_MIN : ℚ)) + cfgStd.MIN_VOLTAGE) :=
  ⟨by decide, C5_voltage_slope_only cfgStd 0 0 0 2000 10 (by decide)
    (by with_unfolding_all rfl)⟩

/-- C6 counterexample: the claim states every configured camera contributes
exactly one slot, so the returned list always has one entry per camera.
With one camera whose read returns `(False, frame)` (a failed capture
without an exception), the `else` branch appends nothing and the returned
list is empty. -/
theorem C6_counterexample :
    capture_images cfgStd [some frameZ] [ReadResult.readOk false frameZ] = [] ∧
    cfgStd.CAMERAS = 1 ∧
    ([] : List (Option Frame)).length ≠ 1 := by
  exact ⟨rfl, rfl, by decide⟩

/-- C6 (amended): per configured camera, in camera order, `capture_images`
contributes the slots given by `captureStep`: one `None` slot on a read
exception (or an out-of-range previous-frame index) and on a frozen frame,
one fresh (rotated if configured) frame slot on a successful distinct read —
but *no* slot at all when the read reports failure (`s` false) or the stored
previous frame is `None`, so the returned list can be shorter than the
camera count (never longer) and later cameras' entries shift left. -/
theorem C6_per_camera_slots (cfg : Config) (prev : List (Option Frame))
    (reads : List ReadResult) :
    capture_images cfg prev reads =
      (List.range cfg.CAMERAS).flatMap (fun i =>
        captureStep cfg.CAMERA_ROTATED (prev.get? i)
          (reads.getD i ReadResult.exc)) ∧
    (capture_images cfg prev reads).length ≤ cfg.CAMERAS ∧
    ∀ (slot : Option (Option Frame)) (r : ReadResult),
      (captureStep cfg.CAMERA_ROTATED slot r).length ≤ 1 := by
  refine ⟨?_, ?_, fun slot r => captureStep_len _ _ _⟩
  · exact capture_go_eq_flatMap cfg.CAMERA_ROTATED prev reads _
  · have hlen := capture_go_len cfg.CAMERA_ROTATED prev reads
      (List.range cfg.CAMERAS)
    rw [List.length_range] at hlen
    exact hlen

theorem C6_per_camera_slots_witness :
    capture_images cfgStd [some frameZ] [ReadResult.readOk false frameZ] =
      (List.range cfgStd.CAMERAS).flatMap (fun i =>
        captureStep cfgStd.CAMERA_ROTATED ([some frameZ].get? i)
          ([ReadResult.readOk false frameZ].getD i ReadResult.exc)) :=
  (C6_per_camera_slots cfgStd [some frameZ]
    [ReadResult.readOk false frameZ]).1

/-- C7 counterexample: the claim states that on a mask whose column-energy
profile is zero except for a spike of 1000 at column 400 (width 640, center
320, 95th-percentile threshold), `find_offset` returns offset 80 with
strength 1000.  It actually returns offset -1 with strength 0: the 95th
percentile of a profile that is zero in over 95 percent of its columns is 0,
so every column qualifies and the median of all columns wins. -/
theorem C7_counterexample :
    find_offset cfgStd [some spikeMask] ≠ ([80], [1000]) := by
  rw [spike_eval_p95]
  decide

/-- C7 (amended): on the single-spike mask the estimator's percentile
threshold degenerates: with the configured 95th percentile the threshold is
0, all 640 columns qualify, and `find_offset` returns the truncated median
column of the whole width re-centered (offset -1) with the column-energy at
that column (strength 0).  The claimed `(spike column - center, spike
value)` behavior is exhibited only when the percentile threshold is 100. -/
theorem C7_spike_degenerate_percentile :
    find_offset cfgStd [some spikeMask] = ([-1], [0]) ∧
    find_offset cfgP100 [some spikeMask] = ([80], [1000]) :=
  ⟨spike_eval_p95, spike_eval_p100⟩

/-- C8 counterexample: the claim states the command is monotonically
non-decreasing in the estimate for fixed average and differential.  With a
negative proportional gain (`P_COEF = -1`, a value the configuration surface
admits), raising the estimate from 0 to 600 lowers the command from 2000 to
1400. -/
theorem C8_counterexample :
    calculate_output cfgNegP 0 0 0 = Except.ok (2000, 10) ∧
    calculate_output cfgNegP 600 0 0 = Except.ok (1400, 7) ∧
    ¬ ((2000 : ℤ) ≤ 1400) := by
  exact ⟨by with_unfolding_all rfl, by with_unfolding_all rfl, by decide⟩

/-- C8 (amended): provided the proportional gain is non-negative (and the
actuator range is ordered, `PWM_MIN ≤ PWM_MAX`), the command returned by
`calculate_output` is monotonically non-decreasing in the estimate for fixed
average and differential; and every returned command lies within
`[PWM_MIN, PWM_MAX]`. -/
theorem C8_monotone_and_clamped (cfg : Config) (kp : ℚ)
    (hP : cfg.P_COEF = some kp) (hkp : 0 ≤ kp)
    (hMM : cfg.PWM_MIN ≤ cfg.PWM_MAX) :
    (∀ (e e' a d : ℚ) (pwm pwm' : ℤ) (v v' : ℚ), e ≤ e' →
      calculate_output cfg e a d = Except.ok (pwm, v) →
      calculate_output cfg e' a d = Except.ok (pwm', v') → pwm ≤ pwm') ∧
    (∀ (e a d : ℚ) (pwm : ℤ) (v : ℚ),
      calculate_output cfg e a d = Except.ok (pwm, v) →
      cfg.PWM_MIN ≤ pwm ∧ pwm ≤ cfg.PWM_MAX) := by
  constructor
  · intro e e' a d pwm pwm' v v' hee hok hok'
    obtain ⟨kp1, ki1, kd1, hP1, hI1, hD1, _, hpwm1, _⟩ :=
      calculate_output_ok_inv cfg e a d pwm v hok
    obtain ⟨kp2, ki2, kd2, hP2, hI2, hD2, _, hpwm2, _⟩ :=
      calculate_output_ok_inv cfg e' a d pwm' v' hok'
    have hk1 : kp1 = kp := Option.some.inj (hP1.symm.trans hP)
    have hk2 : kp2 = kp := Option.some.inj (hP2.symm.trans hP)
    have hki : ki2 = ki1 := Option.some.inj (hI2.symm.trans hI1)
    have hkd : kd2 = kd1 := Option.some.inj (hD2.symm.trans hD1)
    rw [hpwm1, hpwm2, hk1, hk2, hki, hkd]
    apply clampPwm_mono cfg hMM
    apply clampPwm_mono cfg hMM
    apply pyInt_mono
    have : e * kp ≤ e' * kp := mul_le_mul_of_nonneg_right hee hkp
    linarith
  · intro e a d pwm v hok
    obtain ⟨kp1, ki1, kd1, _, _, _, _, hpwm1, _⟩ :=
      calculate_output_ok_inv cfg e a d pwm v hok
    rw [hpwm1]
    exact clampPwm_mem cfg hMM _

theorem C8_monotone_and_clamped_witness :
    cfgStd.P_COEF = some 0 ∧ (0 : ℚ) ≤ 0 ∧
    cfgStd.PWM_MIN ≤ cfgStd.PWM_MAX ∧
    ((∀ (e e' a d : ℚ) (pwm pwm' : ℤ) (v v' : ℚ), e ≤ e' →
       calculate_output cfgStd e a d = Except.ok (pwm, v) →
       calculate_output cfgStd e' a d = Except.ok (pwm', v') → pwm ≤ pwm') ∧
     (∀ (e a d : ℚ) (pwm : ℤ) (v : ℚ),
       calculate_output cfgStd e a d = Except.ok (pwm, v) →
       cfgStd.PWM_MIN ≤ pwm ∧ pwm ≤ cfgStd.PWM_MAX)) :=
  ⟨rfl, le_refl 0, by decide,
   C8_monotone_and_clamped cfgStd 0 rfl (le_refl 0) (by decide)⟩

/-- C9: the offset history, seeded at startup with `NUM_AVERAGES` copies of
the camera-center value and updated by each `estimate_row` call (append the
newest estimate, pop from the front while over capacity), never holds more
than `NUM_AVERAGES` entries, and after any sequence of calls it equals
exactly the last `NUM_AVERAGES` inserted values (startup seeds included) in
insertion order. -/
theorem C9_history_bounded_fifo (cfg : Config)
    (calls : List (List ℤ × List ℕ)) :
    (histAfter cfg calls).length ≤ cfg.NUM_AVERAGES ∧
    histAfter cfg calls =
      (seedHistory cfg ++ calls.map fun c => estOf cfg c.1 c.2).drop
        ((seedHistory cfg ++ calls.map fun c => estOf cfg c.1 c.2).length -
          cfg.NUM_AVERAGES) := by
  have hseed : (seedHistory cfg).length ≤ cfg.NUM_AVERAGES := by
    simp [seedHistory]
  have hfold := histAfter_foldl cfg calls (seedHistory cfg) hseed
  constructor
  · rw [histAfter, hfold, List.length_drop]
    simp only [List.length_append, List.length_map, seedHistory,
      List.length_replicate]
    omega
  · rw [histAfter, hfold]
    congr 1
    simp only [List.length_append, List.length_map, seedHistory,
      List.length_replicate]

theorem C9_history_bounded_fifo_witness :
    (histAfter cfgStd [([80], [1000])]).length ≤ cfgStd.NUM_AVERAGES :=
  (C9_history_bounded_fifo cfgStd [([80], [1000])]).1

/-- C10: `find_offset` returns two lists of equal length whose entries are
paired: zipping them gives exactly the per-mask results in mask order, each
pair coming from one successfully processed mask with the strength read off
the column-energy profile at the chosen offset's column
(`offset + CAMERA_CENTER`); a `None` mask or a mask whose processing raises
contributes to neither list. -/
theorem C10_offsets_sums_paired (cfg : Config)
    (masks : List (Option (List (List ℕ)))) :
    (find_offset cfg masks).1.length = (find_offset cfg masks).2.length ∧
    (find_offset cfg masks).1.zip (find_offset cfg masks).2 =
      maskResults cfg masks ∧
    ∀ p ∈ (find_offset cfg masks).1.zip (find_offset cfg masks).2,
      ∃ mask, some mask ∈ masks ∧ processMask cfg mask = some p ∧
        ∃ b : ℕ, p.1 = (b : ℤ) - (CAMERA_CENTER cfg : ℤ) ∧
          (columnSum mask (mask.headD []).length).getD b 0 = p.2 := by
  have hfo := find_offset_eq cfg masks
  refine ⟨?_, ?_, ?_⟩
  · rw [hfo]
    simp
  · rw [hfo]
    exact zip_map_fst_snd _
  · intro p hp
    rw [hfo] at hp
    rw [zip_map_fst_snd] at hp
    rw [maskResults, List.mem_filterMap] at hp
    obtain ⟨om, hom, hbind⟩ := hp
    rcases om with _ | mask
    · exact Option.noConfusion hbind
    · rw [Option.some_bind] at hbind
      obtain ⟨c, s⟩ := p
      obtain ⟨b, hb1, hb2⟩ := processMask_pairing cfg mask c s hbind
      exact ⟨mask, hom, hbind, b, hb1, hb2⟩

theorem C10_offsets_sums_paired_witness :
    (find_offset cfgStd [none]).1.length = (find_offset cfgStd [none]).2.length :=
  (C10_offsets_sums_paired cfgStd [none]).1

end AgriVision
